import Mathlib

/-!
Verification development for the potion-node client engine (`src/base.ts`).

The TypeScript source implements a client-side object-hydration engine:

* `PotionBase.parseURI` (lines 163-177): URI classification against a registry
  of resource prefixes;
* `PotionBase._fromPotionJSON` (lines 181-243): recursive hydration of tagged
  JSON (`$uri` entity envelopes, `$ref` reference stubs, `$date` markers,
  arrays, plain objects, scalars);
* `PotionBase.get` (lines 254-280): cache probe, pending-request ledger
  (request coalescing), transport fetch, hydration;
* `PotionBase.update` / `save` / `destroy` (lines 282-299): PUT/POST/DELETE
  dispatch;
* `Item.id` (lines 52-59): identifier derivation from an entity URI.

Two complementary shallow embeddings are used:

1. a sequential run-to-completion executor (`Potion.fromPotionJSON`,
   `Potion.get`, `Potion.update`, `Potion.save`, `Potion.destroy`) over an
   explicit state (`Potion.ExecState`: optional object cache plus a transport
   log) and a transport environment (`Potion.Server`).  It computes the
   eventual value of the returned promise.  Synchronous exceptions
   (`Res.thrown`) are distinguished from promise rejections (`Res.rejected`):
   in the source a `throw` inside a `.then` continuation surfaces as a
   rejection, a `throw` during the synchronous part of a call surfaces
   directly to the caller.  The pending-request ledger is not part of this
   model: in a single run-to-completion trace started outside any in-flight
   window every nested `get` runs to completion before the next one starts
   (the coalescing bookkeeping is the domain of the second model).

2. a dispatch-window state machine (`Potion.DState`, `Potion.getStep`,
   `Potion.fetchArriveStep`, `Potion.fetchFailStep`, ...) that records
   exactly the cache / ledger / promise bookkeeping `get` performs between
   the suspension points of the event loop, making the request-coalescing
   window and the failure path of the ledger expressible.

Platform primitives used by the source (`decodeURIComponent`,
`String.prototype.split`, `parseInt`, `Promise.all`'s index-ordered join) are
modelled after their ECMAScript specification, restricted where noted.  The
helpers `toCamelCase` and `pairsToObject` are imported by the source from
`./utils`, a file that is not part of the given sources; they are modelled
from the spec, as marked in their doc comments.
-/

namespace Potion

/-- Boolean prefix test on character lists (models `String.prototype.indexOf(p) === 0`). -/
def isPrefixList : List Char → List Char → Bool
  | [], _ => true
  | _ :: _, [] => false
  | a :: as, b :: bs => a = b && isPrefixList as bs

/-- Boolean contiguous-occurrence test (models `String.prototype.indexOf(p) !== -1`). -/
def isSubList (needle : List Char) : List Char → Bool
  | [] => isPrefixList needle []
  | c :: rest => isPrefixList needle (c :: rest) || isSubList needle rest

/-- `s` contains `sub` as a contiguous substring, as JS `s.indexOf(sub) !== -1`. -/
def jsContains (s sub : String) : Bool := isSubList sub.toList s.toList

/-- Value of a hex digit, `none` for a non-hex character. -/
def hexVal (c : Char) : Option Nat :=
  if '0' ≤ c ∧ c ≤ '9' then some (c.toNat - 48)
  else if 'a' ≤ c ∧ c ≤ 'f' then some (c.toNat - 87)
  else if 'A' ≤ c ∧ c ≤ 'F' then some (c.toNat - 55)
  else none

/-- Percent-decoding of `%XY` escapes. Models the JS global
`decodeURIComponent` restricted to single-byte escapes: a well-formed escape
decodes to the character with code `16*X+Y`; other characters pass through.
(The ECMAScript builtin additionally recombines UTF-8 multi-byte sequences
and raises `URIError` on malformed ones; no claim exercises either case.) -/
def percentDecode : List Char → List Char
  | '%' :: h :: l :: rest =>
    match hexVal h, hexVal l with
    | some a, some b => Char.ofNat (16 * a + b) :: percentDecode rest
    | _, _ => '%' :: percentDecode (h :: l :: rest)
  | c :: rest => c :: percentDecode rest
  | [] => []

/-- Modelled from the spec: wire-to-host key renaming implemented by
`toCamelCase` in `./utils` (not under `src/`): snake/kebab case to camel
case, each `_` or `-` is dropped and the character following it is
uppercased. -/
def camelChars : List Char → List Char
  | [] => []
  | c :: rest =>
    if c = '_' ∨ c = '-' then
      match rest with
      | [] => []
      | d :: rest2 => d.toUpper :: camelChars rest2
    else c :: camelChars rest

/-- Modelled from the spec: `toCamelCase` from `./utils` (see `camelChars`). -/
def toCamelCase (s : String) : String := String.mk (camelChars s.toList)

/-- Split on `'/'`, as JS `String.prototype.split('/')` (splitting the empty
string yields `[""]`). -/
def splitSlashAux (acc : List Char) : List Char → List String
  | [] => [String.mk acc.reverse]
  | c :: rest =>
    if c = '/' then String.mk acc.reverse :: splitSlashAux [] rest
    else splitSlashAux (c :: acc) rest

/-- JS `chars.split('/')` on a character list. -/
def splitSlash (cs : List Char) : List String := splitSlashAux [] cs

/-- Leading decimal digits of a character list, `none` when there are none. -/
def digitsVal (cs : List Char) : Option Nat :=
  match cs.takeWhile Char.isDigit with
  | [] => none
  | ds => some (ds.foldl (fun a c => a * 10 + (c.toNat - 48)) 0)

/-- Models JS `parseInt(s, 10)`: skip leading whitespace, optional sign, read
leading decimal digits, ignore the rest; `none` models the `NaN` result. -/
def parseInt10 (s : String) : Option Int :=
  match s.toList.dropWhile (fun c => c = ' ' ∨ c = '\t' ∨ c = '\n' ∨ c = '\r') with
  | '-' :: rest => (digitsVal rest).map (fun n => -(n : Int))
  | '+' :: rest => (digitsVal rest).map (fun n => (n : Int))
  | rest => (digitsVal rest).map (fun n => (n : Int))

/-- Association-list lookup (JS property read). -/
def assocLookup {κ α : Type} [DecidableEq κ] : List (κ × α) → κ → Option α
  | [], _ => none
  | (k, v) :: rest, q => if k = q then some v else assocLookup rest q

/-- Association-list assignment (JS property write: overwrite in place or append). -/
def assocSet {κ α : Type} [DecidableEq κ] : List (κ × α) → κ → α → List (κ × α)
  | [], k, v => [(k, v)]
  | (k0, v0) :: rest, k, v =>
    if k0 = k then (k, v) :: rest else (k0, v0) :: assocSet rest k v

/-- Association-list deletion (JS `delete obj[k]` / cache `clear`). -/
def assocErase {κ α : Type} [DecidableEq κ] : List (κ × α) → κ → List (κ × α)
  | [], _ => []
  | (k0, v0) :: rest, k =>
    if k0 = k then assocErase rest k else (k0, v0) :: assocErase rest k

/-- Modelled from the spec: `pairsToObject` from `./utils` (not under
`src/`): assembles an object from a collection of `[key, value]` pairs by
assigning them in order (a later pair overwrites an earlier one with the
same key, as JS property assignment does). -/
def pairsToObject {α : Type} (pairs : List (String × α)) : List (String × α) :=
  pairs.foldl (fun acc kv => assocSet acc kv.1 kv.2) []

/-- Boolean membership in a list of keys. -/
def keyElem (k : String) : List String → Bool
  | [] => false
  | k0 :: rest => k0 = k || keyElem k rest

/-- Boolean inclusion of key lists. -/
def keysSubset : List String → List String → Bool
  | [], _ => true
  | k :: rest, l2 => keyElem k l2 && keysSubset rest l2

/-- Decoded JSON values as delivered by the transport collaborator
(`fetch` resolves with a decoded JSON value; `base.ts` line 179). -/
inductive JSON where
  | null
  | bool (b : Bool)
  | num (n : Int)
  | str (s : String)
  | arr (items : List JSON)
  | obj (fields : List (String × JSON))

/-- HTTP method of a transport call (`PotionRequestOptions.method`, line 141). -/
inductive Method where
  | GET
  | PUT
  | POST
  | DELETE
deriving DecidableEq

/-- Hydrated host values produced by `_fromPotionJSON`.
`date payload` models `new Date(payload)` (line 225) with the raw `$date`
payload kept abstract.  `inst resource uri props` models an instance of the
registered resource type `resource` built by `Reflect.construct` (line 213):
the `Item` constructor copies the property bag onto the instance
(`Object.assign(this, properties)`, line 78), the `uri` key landing in the
`_uri` slot through the `uri` setter (lines 48-50) — here the `uri` field —
and the remaining keys becoming the instance's own properties — here
`props`.  `undef` is JS `undefined` (the resolution value of `destroy`'s
promise, lines 293-298). -/
inductive HValue where
  | null
  | undef
  | bool (b : Bool)
  | num (n : Int)
  | str (s : String)
  | date (payload : JSON)
  | arr (items : List HValue)
  | obj (fields : List (String × HValue))
  | inst (resource : String) (uri : String) (props : List (String × HValue))

/-- JS truthiness of a hydrated value (`if (instance)`, lines 257-258;
`if (... this.cache.get(uri))`, line 295). -/
def truthy : HValue → Bool
  | HValue.null => false
  | HValue.undef => false
  | HValue.bool b => b
  | HValue.num n => n ≠ 0
  | HValue.str s => s ≠ ""
  | _ => true

/-- Errors of the engine.  `unknownResource` is the `Error` thrown by
`parseURI` (line 176).  `transportFail` models a rejection of the transport
promise.  `fuelExhausted` is an artifact of the fuel-bounded embedding of
the (possibly divergent) mutual recursion; no theorem relies on it. -/
inductive Err where
  | unknownResource (msg : String)
  | transportFail (uri : String)
  | fuelExhausted

/-- Result of `parseURI` (line 172): the decoded, prefix-stripped URI, the
registered resource matched (identified by the name it was registered
under), and the `/`-separated parameters after the resource prefix. -/
structure ParsedURI where
  uri : String
  resource : String
  params : List String
deriving DecidableEq

/-- The decoded URI after global-prefix stripping (lines 164-168):
`decodeURIComponent`, then drop the configured prefix when
`uri.indexOf(prefix) === 0`. -/
def effectiveURI (pre : String) (uri0 : String) : List Char :=
  let u1 := percentDecode uri0.toList
  if isPrefixList pre.toList u1 then u1.drop pre.toList.length else u1

/-- First registered `(resourceURI, resource)` pair whose prefix followed by
`/` starts the URI — registration order, lines 170-174. -/
def findMatch : List (String × String) → List Char → Option (String × String)
  | [], _ => none
  | (ru, res) :: rest, u =>
    if isPrefixList (ru.toList ++ ['/']) u then some (ru, res) else findMatch rest u

/-- `PotionBase.parseURI` (lines 163-177).  The registry (`this.resources`)
is a list of `(resourceURI, resource)` bindings in registration order
(`Object.entries` iterates string keys in insertion order).  Resources are
identified by the name they were registered under.  The thrown `Error`
becomes `Except.error` carrying the source's message. -/
def parseURI (pre : String) (reg : List (String × String)) (uri0 : String) :
    Except String ParsedURI :=
  let u := effectiveURI pre uri0
  match findMatch reg u with
  | some (ru, res) =>
    Except.ok ⟨String.mk u, res, splitSlash (u.drop (ru.toList.length + 1))⟩
  | none => Except.error ("Uninterpretable or unknown resource URI: " ++ String.mk u)

/-- State threaded through the executor: the optional Object Cache
(`this.cache`; `none` when no cache collaborator is configured) and the
chronological log of transport calls issued (each `this.fetch` invocation,
with its URI and method). -/
structure ExecState where
  cache : Option (List (String × HValue))
  fetchLog : List (String × Method)

/-- The transport collaborator: maps a URI, a method and an optional request
body to the decoded JSON of the response, or `none` when the transport
promise rejects. -/
def Server : Type := String → Method → Option JSON → Option JSON

/-- Outcome of an executor run together with the final state.  `ok` is a
fulfilled promise, `thrown` a synchronous exception propagating out of the
call itself, `rejected` a rejected promise. -/
inductive Res (α : Type) where
  | ok (a : α) (s : ExecState)
  | thrown (e : Err) (s : ExecState)
  | rejected (e : Err) (s : ExecState)

/-- Final state of an outcome. -/
def resState {α : Type} : Res α → ExecState
  | Res.ok _ s => s
  | Res.thrown _ s => s
  | Res.rejected _ s => s

/-- Fulfilment value of an outcome, `none` on exception or rejection. -/
def resOk {α : Type} : Res α → Option α
  | Res.ok a _ => some a
  | _ => none

/-- Raw cache read: `this.cache.get(uri)` when a cache is configured. -/
def cacheGet (s : ExecState) (uri : String) : Option HValue :=
  match s.cache with
  | none => none
  | some es => assocLookup es uri

/-- The cache probe of `get` (lines 256-261) and of `destroy`'s clear guard
(line 295): a configured cache holds a truthy value for `uri`. -/
def cacheHit (s : ExecState) (uri : String) : Option HValue :=
  match s.cache with
  | none => none
  | some es =>
    match assocLookup es uri with
    | some v => if truthy v then some v else none
    | none => none

/-- `this.cache.set(uri, instance)` when a cache is configured (lines 214-216). -/
def cacheStore (s : ExecState) (uri : String) (v : HValue) : ExecState :=
  match s.cache with
  | some es => { s with cache := some (assocSet es uri v) }
  | none => s

/-- `this.cache.clear(uri)` (line 296). -/
def clearCache (s : ExecState) (uri : String) : ExecState :=
  match s.cache with
  | some es => { s with cache := some (assocErase es uri) }
  | none => s

/-- `request` URI normalization (lines 245-249): prepend the API prefix
unless it already occurs in the URI (`uri.indexOf(this._prefix) === -1`). -/
def requestUri (pre uri : String) : String :=
  if jsContains uri pre then uri else pre ++ uri

/-- Record one transport invocation (`this.fetch(uri, options)`, line 251). -/
def logFetch (s : ExecState) (ruri : String) (m : Method) : ExecState :=
  { s with fetchLog := s.fetchLog ++ [(ruri, m)] }

/-- Chaining a hydration after a transport response (`.then((json) => ...)`):
a synchronous `throw` inside a `.then` continuation rejects the chained
promise instead of propagating to the caller. -/
def thenFromJSON : Res HValue → Res HValue
  | Res.thrown e s => Res.rejected e s
  | r => r

/-- The string value of `json.$uri` (`typeof json.$uri === 'string'`,
line 185): `none` when the key is absent or its value is not a string. -/
def strField (fields : List (String × JSON)) (k : String) : Option String :=
  match assocLookup fields k with
  | some (JSON.str s) => some s
  | _ => none

/-- Keys removed of the `$uri` key (`Object.keys(properties).filter(key =>
key !== '$uri')` copied into the fresh bag, lines 203-208). -/
def stripUriKey (props : List (String × HValue)) : List (String × HValue) :=
  props.filter (fun kv => kv.1 ≠ "$uri")

/-- The string read back from the assembled bag's `$uri` slot
(`properties.$uri`, line 210). -/
def uriFieldString (props : List (String × HValue)) : String :=
  match assocLookup props "$uri" with
  | some (HValue.str x) => x
  | _ => ""

mutual

/-- `PotionBase._fromPotionJSON` (lines 181-243), branch for branch:
arrays hydrate element-wise through `Promise.all` (line 184, here
`hydrateList`); an object whose `$uri` is a string is an entity envelope
(lines 185-219): its URI is resolved (a resolver failure propagates as a
synchronous throw, as in the source where `parseURI` is called before any
promise is created), its fields are turned into `[key, value]` pairs
(`entityPairs`), the pairs are assembled into a bag, the `$uri` key is
filtered out, the resolved URI is attached under `uri`, an instance of the
resolved resource is constructed and stored in the cache under the resolved
URI; a one-key `{$ref: string}` object resolves the reference and delegates
to `get` (lines 220-223); a one-key `$date` object yields a date value
(lines 224-226); every other object hydrates as a plain mapping with
camel-cased keys (lines 229-239); scalars pass through (line 241).  `fuel`
bounds the `get`/hydration recursion (reference cycles diverge in the
source); it is a model artifact. -/
def fromPotionJSON (fuel : Nat) (srv : Server) (pre : String)
    (reg : List (String × String)) (s : ExecState) (j : JSON) : Res HValue :=
  match fuel with
  | 0 => Res.thrown Err.fuelExhausted s
  | fuel0 + 1 =>
    match j with
    | JSON.null => Res.ok HValue.null s
    | JSON.bool b => Res.ok (HValue.bool b) s
    | JSON.num n => Res.ok (HValue.num n) s
    | JSON.str t => Res.ok (HValue.str t) s
    | JSON.arr items =>
      match hydrateList fuel0 srv pre reg s items with
      | Res.ok vs s1 => Res.ok (HValue.arr vs) s1
      | Res.thrown e s1 => Res.thrown e s1
      | Res.rejected e s1 => Res.rejected e s1
    | JSON.obj fields =>
      match strField fields "$uri" with
      | some u =>
        match parseURI pre reg u with
        | Except.error m => Res.thrown (Err.unknownResource m) s
        | Except.ok pr =>
          match entityPairs fuel0 srv pre reg pr.uri s fields with
          | Res.ok pairs s1 =>
            let properties := pairsToObject pairs
            let instv := HValue.inst pr.resource (uriFieldString properties)
              (stripUriKey properties)
            Res.ok instv (cacheStore s1 pr.uri instv)
          | Res.thrown e s1 => Res.thrown e s1
          | Res.rejected e s1 => Res.rejected e s1
      | none =>
        match fields with
        | [("$ref", JSON.str r)] =>
          match parseURI pre reg r with
          | Except.error m => Res.thrown (Err.unknownResource m) s
          | Except.ok pr => get fuel0 srv pre reg s pr.uri
        | [("$date", v)] => Res.ok (HValue.date v) s
        | other => plainObject fuel0 srv pre reg s other
termination_by structural fuel

/-- The array branch: `Promise.all(json.map((item) => this._fromPotionJSON(item)))`
(line 184).  The sequential threading realizes the index-ordered join of
`Promise.all`; `promiseAllAssemble` below models the join's independence
from settlement order. -/
def hydrateList (fuel : Nat) (srv : Server) (pre : String)
    (reg : List (String × String)) (s : ExecState) (items : List JSON) :
    Res (List HValue) :=
  match fuel with
  | 0 => Res.thrown Err.fuelExhausted s
  | fuel0 + 1 =>
    match items with
    | [] => Res.ok [] s
    | j :: rest =>
      match fromPotionJSON fuel0 srv pre reg s j with
      | Res.ok v s1 =>
        match hydrateList fuel0 srv pre reg s1 rest with
        | Res.ok vs s2 => Res.ok (v :: vs) s2
        | Res.thrown e s2 => Res.thrown e s2
        | Res.rejected e s2 => Res.rejected e s2
      | Res.thrown e s1 => Res.thrown e s1
      | Res.rejected e s1 => Res.rejected e s1
termination_by structural fuel

/-- The entity-envelope field loop (lines 187-199): the `$uri` key
contributes the pair `['$uri', uri]` with the resolved URI `pru`; every
other key contributes `[toCamelCase(key), hydrated value]`. -/
def entityPairs (fuel : Nat) (srv : Server) (pre : String)
    (reg : List (String × String)) (pru : String) (s : ExecState)
    (fields : List (String × JSON)) : Res (List (String × HValue)) :=
  match fuel with
  | 0 => Res.thrown Err.fuelExhausted s
  | fuel0 + 1 =>
    match fields with
    | [] => Res.ok [] s
    | (k, v) :: rest =>
      if k = "$uri" then
        match entityPairs fuel0 srv pre reg pru s rest with
        | Res.ok ps s1 => Res.ok (("$uri", HValue.str pru) :: ps) s1
        | Res.thrown e s1 => Res.thrown e s1
        | Res.rejected e s1 => Res.rejected e s1
      else
        match fromPotionJSON fuel0 srv pre reg s v with
        | Res.ok hv s1 =>
          match entityPairs fuel0 srv pre reg pru s1 rest with
          | Res.ok ps s2 => Res.ok ((toCamelCase k, hv) :: ps) s2
          | Res.thrown e s2 => Res.thrown e s2
          | Res.rejected e s2 => Res.rejected e s2
        | Res.thrown e s1 => Res.thrown e s1
        | Res.rejected e s1 => Res.rejected e s1
termination_by structural fuel

/-- The plain-object field loop (lines 229-235): every key contributes
`[toCamelCase(key), hydrated value]`. -/
def plainPairs (fuel : Nat) (srv : Server) (pre : String)
    (reg : List (String × String)) (s : ExecState)
    (fields : List (String × JSON)) : Res (List (String × HValue)) :=
  match fuel with
  | 0 => Res.thrown Err.fuelExhausted s
  | fuel0 + 1 =>
    match fields with
    | [] => Res.ok [] s
    | (k, v) :: rest =>
      match fromPotionJSON fuel0 srv pre reg s v with
      | Res.ok hv s1 =>
        match plainPairs fuel0 srv pre reg s1 rest with
        | Res.ok ps s2 => Res.ok ((toCamelCase k, hv) :: ps) s2
        | Res.thrown e s2 => Res.thrown e s2
        | Res.rejected e s2 => Res.rejected e s2
      | Res.thrown e s1 => Res.thrown e s1
      | Res.rejected e s1 => Res.rejected e s1
termination_by structural fuel

/-- The plain-object assembly (lines 237-239): the hydrated pairs become a
mapping via `pairsToObject`. -/
def plainObject (fuel : Nat) (srv : Server) (pre : String)
    (reg : List (String × String)) (s : ExecState)
    (fields : List (String × JSON)) : Res HValue :=
  match fuel with
  | 0 => Res.thrown Err.fuelExhausted s
  | fuel0 + 1 =>
    match plainPairs fuel0 srv pre reg s fields with
    | Res.ok ps s1 => Res.ok (HValue.obj (pairsToObject ps)) s1
    | Res.thrown e s1 => Res.thrown e s1
    | Res.rejected e s1 => Res.rejected e s1
termination_by structural fuel

/-- `PotionBase.get` (lines 254-280) as run to completion: a configured
cache holding a truthy value for `uri` resolves immediately with it and no
transport call (lines 256-261); otherwise a GET is issued through `request`
(prefix normalization, lines 245-252), a transport rejection propagates
(lines 274, 277), and the response JSON is hydrated inside the `.then`
continuation, whose synchronous throws become rejections of the returned
promise.  The pending-request ledger (lines 263-277) is the
dispatch-window machine's domain (`getStep` below): along a sequential
run-to-completion trace the entry registered at line 274 has always been
deleted again (line 275) by the time any later `get` runs. -/
def get (fuel : Nat) (srv : Server) (pre : String)
    (reg : List (String × String)) (s : ExecState) (uri : String) : Res HValue :=
  match fuel with
  | 0 => Res.thrown Err.fuelExhausted s
  | fuel0 + 1 =>
    match cacheHit s uri with
    | some v => Res.ok v s
    | none =>
      let ruri := requestUri pre uri
      let s1 := logFetch s ruri Method.GET
      match srv ruri Method.GET none with
      | none => Res.rejected (Err.transportFail ruri) s1
      | some j => thenFromJSON (fromPotionJSON fuel0 srv pre reg s1 j)
termination_by structural fuel

end

/-- `PotionBase.update` (lines 282-284): one PUT through `request` carrying
the caller's data payload, then the response JSON hydrated through
`_fromPotionJSON` inside the `.then` continuation. -/
def update (fuel : Nat) (srv : Server) (pre : String)
    (reg : List (String × String)) (s : ExecState) (uri : String)
    (data : JSON) : Res HValue :=
  let ruri := requestUri pre uri
  let s1 := logFetch s ruri Method.PUT
  match srv ruri Method.PUT (some data) with
  | none => Res.rejected (Err.transportFail ruri) s1
  | some j => thenFromJSON (fromPotionJSON fuel srv pre reg s1 j)

/-- `PotionBase.save` (lines 286-288): one POST through `request` to the
root URI, then the response JSON hydrated through `_fromPotionJSON`. -/
def save (fuel : Nat) (srv : Server) (pre : String)
    (reg : List (String × String)) (s : ExecState) (rootUri : String)
    (data : JSON) : Res HValue :=
  let ruri := requestUri pre rootUri
  let s1 := logFetch s ruri Method.POST
  match srv ruri Method.POST (some data) with
  | none => Res.rejected (Err.transportFail ruri) s1
  | some j => thenFromJSON (fromPotionJSON fuel srv pre reg s1 j)

/-- `PotionBase.destroy` (lines 290-299): one DELETE through `request`; the
`.then` continuation ignores the response body, clears the item's URI from
the cache when a configured cache holds a truthy value for it, and returns
`undefined` — the response JSON is never hydrated. -/
def destroy (srv : Server) (pre : String) (s : ExecState) (uri : String) :
    Res HValue :=
  let ruri := requestUri pre uri
  let s1 := logFetch s ruri Method.DELETE
  match srv ruri Method.DELETE none with
  | none => Res.rejected (Err.transportFail ruri) s1
  | some _ =>
    match cacheHit s1 uri with
    | some _ => Res.ok HValue.undef (clearCache s1 uri)
    | none => Res.ok HValue.undef s1

/-- State of one promise in the dispatch-window machine.  A ledger promise
is `pending` from its registration until its whole chain (fetch plus
hydration) settles. -/
inductive PromState where
  | pending
  | fulfilled (v : HValue)
  | rejected

/-- Dispatcher state between event-loop suspension points: the optional
Object Cache, the pending-request ledger (`this._promises`, line 152:
URI to promise), the pool of promises created so far, a fresh-id counter,
and the chronological transport log. -/
structure DState where
  cache : Option (List (String × HValue))
  ledger : List (String × Nat)
  promises : List (Nat × PromState)
  nextId : Nat
  fetchLog : List (String × Method)

/-- What a `get` call hands back synchronously: a fresh promise resolved
with a cached instance (line 259), the existing in-flight future from the
ledger (lines 265-268), or a freshly registered future (lines 274-279). -/
inductive GetRes where
  | cached (v : HValue)
  | joined (id : Nat)
  | started (id : Nat)

/-- The cache probe of `get` on dispatcher state (lines 256-261). -/
def cacheHitD (d : DState) (uri : String) : Option HValue :=
  match d.cache with
  | none => none
  | some es =>
    match assocLookup es uri with
    | some v => if truthy v then some v else none
    | none => none

/-- The synchronous part of `PotionBase.get` (lines 254-280): cache probe;
else ledger probe returning the existing future; else register a fresh
pending future in the ledger and issue one GET through `request`. -/
def getStep (d : DState) (pre uri : String) : GetRes × DState :=
  match cacheHitD d uri with
  | some v => (GetRes.cached v, d)
  | none =>
    match assocLookup d.ledger uri with
    | some id => (GetRes.joined id, d)
    | none =>
      (GetRes.started d.nextId,
        { d with
          ledger := assocSet d.ledger uri d.nextId,
          promises := assocSet d.promises d.nextId PromState.pending,
          nextId := d.nextId + 1,
          fetchLog := d.fetchLog ++ [(requestUri pre uri, Method.GET)] })

/-- The success continuation of the transport fetch firing when the raw
JSON arrives (lines 274-276): `delete this._promises[uri]` runs first, then
hydration begins — the registered future itself stays pending until
hydration completes. -/
def fetchArriveStep (d : DState) (uri : String) : DState :=
  { d with ledger := assocErase d.ledger uri }

/-- A transport rejection for the in-flight request on `uri`: the success
continuation never runs, so the ledger entry is NOT deleted (removal is
coded only on the success path, line 275); the registered future becomes
rejected. -/
def fetchFailStep (d : DState) (uri : String) : DState :=
  match assocLookup d.ledger uri with
  | some id => { d with promises := assocSet d.promises id PromState.rejected }
  | none => d

/-- Dispatcher-state footprint of `update` (lines 282-284): one PUT is
issued; neither the ledger nor the promise pool is read or written. -/
def updateStep (d : DState) (pre uri : String) : DState :=
  { d with fetchLog := d.fetchLog ++ [(requestUri pre uri, Method.PUT)] }

/-- Dispatcher-state footprint of `save` (lines 286-288): one POST is
issued; neither the ledger nor the promise pool is read or written. -/
def saveStep (d : DState) (pre rootUri : String) : DState :=
  { d with fetchLog := d.fetchLog ++ [(requestUri pre rootUri, Method.POST)] }

/-- Dispatcher-state footprint of `destroy` at call time (lines 290-293):
one DELETE is issued; neither the ledger nor the promise pool is read or
written (the cache clear on the success path is `destroy`'s executor-side
behavior). -/
def destroyStep (d : DState) (pre uri : String) : DState :=
  { d with fetchLog := d.fetchLog ++ [(requestUri pre uri, Method.DELETE)] }

/-- Result of the `Item.id` getter (lines 52-59): `nullId` when the item's
URI is unset (`!this.uri`), `numId` the JS number from `parseInt(params[0],
10)` (`none` standing for `NaN`), `errId` when `parseURI` throws. -/
inductive IdResult where
  | nullId
  | numId (n : Option Int)
  | errId (msg : String)
deriving DecidableEq

/-- `Item.id` (lines 52-59).  `uri = none` models an unset (`undefined` or
`null`) `_uri`; the empty string is falsy in JS, so it also yields `null`
without consulting the resolver. -/
def itemId (pre : String) (reg : List (String × String))
    (uri : Option String) : IdResult :=
  match uri with
  | none => IdResult.nullId
  | some u =>
    if u = "" then IdResult.nullId
    else
      match parseURI pre reg u with
      | Except.error m => IdResult.errId m
      | Except.ok pr => IdResult.numId (parseInt10 (List.headD pr.params ""))

/-- Models the index-ordered join of `Promise.all` (line 184 and 201): given
the settlement events `(slot index, value)` of `n` sibling promises in
their arrival order, reassemble the results by slot.  `assembleFrom start k
cs` collects slots `start, start+1, ..., start+k-1`. -/
def assembleFrom (cs : List (Nat × HValue)) (start : Nat) : Nat → Option (List HValue)
  | 0 => some []
  | k + 1 =>
    match assocLookup cs start with
    | none => none
    | some v =>
      match assembleFrom cs (start + 1) k with
      | none => none
      | some vs => some (v :: vs)

/-- `Promise.all`'s join for `n` slots (see `assembleFrom`). -/
def promiseAllAssemble (n : Nat) (cs : List (Nat × HValue)) : Option (List HValue) :=
  assembleFrom cs 0 n

/-- The keys of a property bag. -/
def propKeys (props : List (String × HValue)) : List String := props.map Prod.fst

/-- The camel-cased original keys of a wire object. -/
def camelKeys (fields : List (String × JSON)) : List String :=
  fields.map (fun kv => toCamelCase kv.1)

/-- No wire key other than `$uri` itself camel-cases to `$uri` (keys that do
not round-trip cleanly through the naming conversion are outside the spec's
stated behavior). -/
def noUriClash (fields : List (String × JSON)) : Bool :=
  fields.all (fun kv => kv.1 == "$uri" || toCamelCase kv.1 != "$uri")

/-- None of the given registrations matches the URI (first-match iteration). -/
def noneMatches (fore : List (String × String)) (u : List Char) : Bool :=
  fore.all (fun q => !(isPrefixList (q.1.toList ++ ['/']) u))

/-- Concrete registry used by the concrete instances below: the resource
`User` registered at prefix `/user`. -/
def testReg : List (String × String) := [("/user", "User")]

/-- Wire envelope of the `/user/5` entity. -/
def userBody : JSON :=
  JSON.obj [("$uri", JSON.str "/user/5"), ("first_name", JSON.str "Ann")]

/-- The hydrated `/user/5` instance. -/
def userInst : HValue :=
  HValue.inst "User" "/user/5" [("firstName", HValue.str "Ann")]

/-- Concrete transport used by the concrete instances below.  GET `/user/5`
serves the entity envelope; GET `/oops` serves an envelope whose `$uri`
matches no registered resource; PUT `/user/5` and POST `/user` serve the
entity envelope; DELETE `/user/5` succeeds with a JSON body; everything
else rejects. -/
def testServer : Server := fun uri m _data =>
  match m with
  | Method.GET =>
    if uri = "/user/5" then some userBody
    else if uri = "/oops" then some (JSON.obj [("$uri", JSON.str "/missing/1")])
    else none
  | Method.PUT => if uri = "/user/5" then some userBody else none
  | Method.POST => if uri = "/user" then some userBody else none
  | Method.DELETE =>
    if uri = "/user/5" then some (JSON.obj [("x", JSON.num 1)]) else none

end Potion

open Potion


namespace Potion

theorem assocLookup_set_self {κ α : Type} [DecidableEq κ] (l : List (κ × α))
    (k : κ) (v : α) : assocLookup (assocSet l k v) k = some v := by
  induction l with
  | nil => simp [assocSet, assocLookup]
  | cons hd tl ih =>
    by_cases h : hd.1 = k
    · simp [assocSet, h, assocLookup]
    · simpa [assocSet, h, assocLookup] using ih

theorem assocLookup_set_ne {κ α : Type} [DecidableEq κ] (l : List (κ × α))
    (k0 k : κ) (v : α) (h : k0 ≠ k) :
    assocLookup (assocSet l k0 v) k = assocLookup l k := by
  induction l with
  | nil => simp [assocSet, assocLookup, h]
  | cons hd tl ih =>
    by_cases h1 : hd.1 = k0
    · simp [assocSet, h1, assocLookup, h]
    · simp [assocSet, h1, assocLookup, ih]

theorem assocLookup_erase_self {κ α : Type} [DecidableEq κ] (l : List (κ × α))
    (k : κ) : assocLookup (assocErase l k) k = none := by
  induction l with
  | nil => simp [assocErase, assocLookup]
  | cons hd tl ih =>
    by_cases h : hd.1 = k
    · simpa [assocErase, h] using ih
    · simpa [assocErase, h, assocLookup] using ih

theorem assocLookup_mem_pair {κ α : Type} [DecidableEq κ] (l : List (κ × α))
    (k : κ) (v : α) (h : assocLookup l k = some v) : (k, v) ∈ l := by
  induction l with
  | nil => simp [assocLookup] at h
  | cons hd tl ih =>
    obtain ⟨k0, v0⟩ := hd
    by_cases h1 : k0 = k
    · simp [assocLookup, h1] at h
      subst h1
      subst h
      exact List.mem_cons_self _ _
    · simp [assocLookup, h1] at h
      exact List.mem_cons_of_mem _ (ih h)

end Potion

namespace Potion

theorem cacheGet_clearCache (s : ExecState) (uri : String) :
    cacheGet (clearCache s uri) uri = none := by
  match s with
  | ⟨none, log⟩ => rfl
  | ⟨some es, log⟩ => simp [clearCache, cacheGet, assocLookup_erase_self]

theorem cacheGet_store_self (s : ExecState) (uri : String) (v : HValue)
    (h : s.cache.isSome = true) :
    cacheGet (cacheStore s uri v) uri = some v := by
  match s with
  | ⟨none, log⟩ => simp at h
  | ⟨some es, log⟩ => simp [cacheStore, cacheGet, assocLookup_set_self]

theorem cacheHit_logFetch (s : ExecState) (ruri : String) (m : Method)
    (uri : String) : cacheHit (logFetch s ruri m) uri = cacheHit s uri := rfl

theorem getStep_join (d : DState) (pre uri : String) (id : Nat)
    (hc : cacheHitD d uri = none) (hl : assocLookup d.ledger uri = some id) :
    getStep d pre uri = (GetRes.joined id, d) := by
  simp [getStep, hc, hl]

theorem getStep_miss (d : DState) (pre uri : String)
    (hc : cacheHitD d uri = none) (hl : assocLookup d.ledger uri = none) :
    getStep d pre uri =
      (GetRes.started d.nextId,
        { d with
          ledger := assocSet d.ledger uri d.nextId,
          promises := assocSet d.promises d.nextId PromState.pending,
          nextId := d.nextId + 1,
          fetchLog := d.fetchLog ++ [(requestUri pre uri, Method.GET)] }) := by
  simp [getStep, hc, hl]

theorem cacheHitD_ledger_invariant (d : DState) (uri : String)
    (led : List (String × Nat)) (pro : List (Nat × PromState)) (n : Nat)
    (log : List (String × Method)) :
    cacheHitD ⟨d.cache, led, pro, n, log⟩ uri = cacheHitD d uri := rfl

theorem keyElem_eq_true (k : String) (l : List String) :
    keyElem k l = true ↔ k ∈ l := by
  induction l with
  | nil => simp [keyElem]
  | cons hd tl ih =>
    by_cases h : hd = k
    · simp [keyElem, h]
    · simp [keyElem, h, ih, Ne.symm h]

theorem keysSubset_of (l1 l2 : List String) (h : ∀ k, k ∈ l1 → k ∈ l2) :
    keysSubset l1 l2 = true := by
  induction l1 with
  | nil => rfl
  | cons hd tl ih =>
    simp only [keysSubset, Bool.and_eq_true]
    constructor
    · exact (keyElem_eq_true hd l2).mpr (h hd (List.mem_cons_self _ _))
    · exact ih (fun k hk => h k (List.mem_cons_of_mem _ hk))

theorem propKeys_assocSet_sub (l : List (String × HValue)) (k0 : String)
    (v : HValue) (k : String) (h : k ∈ propKeys (assocSet l k0 v)) :
    k = k0 ∨ k ∈ propKeys l := by
  induction l with
  | nil => simp [assocSet, propKeys] at h; exact Or.inl h
  | cons hd tl ih =>
    by_cases h1 : hd.1 = k0
    · simp [assocSet, h1, propKeys] at h
      rcases h with h | h
      · exact Or.inl h
      · exact Or.inr (by simp [propKeys, h])
    · simp [assocSet, h1, propKeys] at h
      rcases h with h | h
      · exact Or.inr (by simp [propKeys, h])
      · rcases ih (by simpa [propKeys] using h) with h2 | h2
        · exact Or.inl h2
        · exact Or.inr (by simp [propKeys] at h2 ⊢; exact Or.inr h2)

theorem propKeys_foldl_sub (ps : List (String × HValue))
    (acc : List (String × HValue)) (k : String)
    (h : k ∈ propKeys (ps.foldl (fun a kv => assocSet a kv.1 kv.2) acc)) :
    k ∈ propKeys acc ∨ k ∈ propKeys ps := by
  induction ps generalizing acc with
  | nil => exact Or.inl h
  | cons hd tl ih =>
    rcases ih (assocSet acc hd.1 hd.2) h with h1 | h1
    · rcases propKeys_assocSet_sub acc hd.1 hd.2 k h1 with h2 | h2
      · exact Or.inr (by simp [propKeys, h2])
      · exact Or.inl h2
    · exact Or.inr (by simp [propKeys] at h1 ⊢; exact Or.inr h1)

theorem propKeys_pairsToObject_sub (ps : List (String × HValue)) (k : String)
    (h : k ∈ propKeys (pairsToObject ps)) : k ∈ propKeys ps := by
  rcases propKeys_foldl_sub ps [] k h with h1 | h1
  · simp [propKeys] at h1
  · exact h1

theorem propKeys_stripUriKey_sub (props : List (String × HValue)) (k : String)
    (h : k ∈ propKeys (stripUriKey props)) : k ∈ propKeys props := by
  simp only [propKeys, stripUriKey, List.mem_map] at h ⊢
  obtain ⟨kv, hkv, hk⟩ := h
  exact ⟨kv, (List.mem_filter.mp hkv).1, hk⟩

theorem stripUriKey_no_uri (props : List (String × HValue)) :
    keyElem "$uri" (propKeys (stripUriKey props)) = false := by
  rw [Bool.eq_false_iff]
  intro h
  have h1 := (keyElem_eq_true _ _).mp h
  simp only [propKeys, stripUriKey, List.mem_map] at h1
  obtain ⟨kv, hkv, hk⟩ := h1
  have h2 := (List.mem_filter.mp hkv).2
  simp [hk] at h2

end Potion


namespace Potion

theorem assocLookup_foldl_set (ps : List (String × HValue))
    (acc : List (String × HValue)) (k : String) (x : HValue)
    (hin : k ∈ propKeys ps ∨ assocLookup acc k = some x)
    (hval : ∀ q, q ∈ ps → q.1 = k → q.2 = x) :
    assocLookup (ps.foldl (fun a kv => assocSet a kv.1 kv.2) acc) k = some x := by
  induction ps generalizing acc with
  | nil =>
    rcases hin with h | h
    · simp [propKeys] at h
    · exact h
  | cons hd tl ih =>
    by_cases h1 : hd.1 = k
    · refine ih (assocSet acc hd.1 hd.2) (Or.inr ?_)
        (fun q hq => hval q (List.mem_cons_of_mem _ hq))
      have hx : hd.2 = x := hval hd (List.mem_cons_self _ _) h1
      rw [h1, hx]
      exact assocLookup_set_self acc k x
    · refine ih (assocSet acc hd.1 hd.2) ?_
        (fun q hq => hval q (List.mem_cons_of_mem _ hq))
      rcases hin with h | h
      · simp only [propKeys, List.map_cons, List.mem_cons] at h
        rcases h with h | h
        · exact absurd h.symm h1
        · exact Or.inl h
      · refine Or.inr ?_
        rw [assocLookup_set_ne acc hd.1 k hd.2 h1]
        exact h

theorem pairsToObject_lookup (ps : List (String × HValue)) (k : String)
    (x : HValue) (hin : k ∈ propKeys ps)
    (hval : ∀ q, q ∈ ps → q.1 = k → q.2 = x) :
    assocLookup (pairsToObject ps) k = some x :=
  assocLookup_foldl_set ps [] k x (Or.inl hin) hval

theorem uriFieldString_eq (props : List (String × HValue)) (x : String)
    (h : assocLookup props "$uri" = some (HValue.str x)) :
    uriFieldString props = x := by
  simp [uriFieldString, h]

end Potion

namespace Potion

theorem entityPairs_keys (fuel : Nat) (srv : Server) (pre : String)
    (reg : List (String × String)) (pru : String) (s : ExecState)
    (fields : List (String × JSON)) (pairs : List (String × HValue))
    (s1 : ExecState)
    (h : entityPairs fuel srv pre reg pru s fields = Res.ok pairs s1) :
    propKeys pairs = camelKeys fields := by
  induction fields generalizing fuel s pairs s1 with
  | nil =>
    match fuel with
    | 0 => simp [entityPairs] at h
    | fuel0 + 1 =>
      simp [entityPairs] at h
      simp [← h.1, propKeys, camelKeys]
  | cons hd tl ih =>
    match fuel with
    | 0 => simp [entityPairs] at h
    | fuel0 + 1 =>
      obtain ⟨k, v⟩ := hd
      by_cases h1 : k = "$uri"
      · subst h1
        match h2 : entityPairs fuel0 srv pre reg pru s tl with
        | Res.ok ps s2 =>
          simp [entityPairs, h2] at h
          have huri : toCamelCase "$uri" = "$uri" := rfl
          simp [← h.1, propKeys, camelKeys, huri]
          have := ih fuel0 s ps s2 h2
          simpa [propKeys, camelKeys] using this
        | Res.thrown e s2 => simp [entityPairs, h2] at h
        | Res.rejected e s2 => simp [entityPairs, h2] at h
      · match h3 : fromPotionJSON fuel0 srv pre reg s v with
        | Res.ok hv s2 =>
          match h2 : entityPairs fuel0 srv pre reg pru s2 tl with
          | Res.ok ps s3 =>
            simp [entityPairs, h1, h3, h2] at h
            simp [← h.1, propKeys, camelKeys]
            have := ih fuel0 s2 ps s3 h2
            simpa [propKeys, camelKeys] using this
          | Res.thrown e s3 => simp [entityPairs, h1, h3, h2] at h
          | Res.rejected e s3 => simp [entityPairs, h1, h3, h2] at h
        | Res.thrown e s2 => simp [entityPairs, h1, h3] at h
        | Res.rejected e s2 => simp [entityPairs, h1, h3] at h

theorem entityPairs_uriVal (fuel : Nat) (srv : Server) (pre : String)
    (reg : List (String × String)) (pru : String) (s : ExecState)
    (fields : List (String × JSON)) (pairs : List (String × HValue))
    (s1 : ExecState)
    (h : entityPairs fuel srv pre reg pru s fields = Res.ok pairs s1)
    (hside : noUriClash fields = true) :
    ∀ q, q ∈ pairs → q.1 = "$uri" → q.2 = HValue.str pru := by
  induction fields generalizing fuel s pairs s1 with
  | nil =>
    match fuel with
    | 0 => simp [entityPairs] at h
    | fuel0 + 1 =>
      simp [entityPairs] at h
      rw [h.1]
      simp
  | cons hd tl ih =>
    match fuel with
    | 0 => simp [entityPairs] at h
    | fuel0 + 1 =>
      obtain ⟨k, v⟩ := hd
      have hside1 : noUriClash tl = true := by
        simp [noUriClash] at hside ⊢
        exact fun q hq => hside.2 q hq
      by_cases h1 : k = "$uri"
      · subst h1
        match h2 : entityPairs fuel0 srv pre reg pru s tl with
        | Res.ok ps s2 =>
          simp [entityPairs, h2] at h
          intro q hq hq1
          rw [← h.1] at hq
          rcases List.mem_cons.mp hq with hq2 | hq2
          · rw [hq2]
          · exact ih fuel0 s ps s2 h2 hside1 q hq2 hq1
        | Res.thrown e s2 => simp [entityPairs, h2] at h
        | Res.rejected e s2 => simp [entityPairs, h2] at h
      · match h3 : fromPotionJSON fuel0 srv pre reg s v with
        | Res.ok hv s2 =>
          match h2 : entityPairs fuel0 srv pre reg pru s2 tl with
          | Res.ok ps s3 =>
            simp [entityPairs, h1, h3, h2] at h
            intro q hq hq1
            rw [← h.1] at hq
            rcases List.mem_cons.mp hq with hq2 | hq2
            · exfalso
              have hcl : toCamelCase k ≠ "$uri" := by
                simp [noUriClash] at hside
                rcases hside.1 with hc | hc
                · exact absurd hc h1
                · exact hc
              rw [hq2] at hq1
              exact hcl hq1
            · exact ih fuel0 s2 ps s3 h2 hside1 q hq2 hq1
          | Res.thrown e s3 => simp [entityPairs, h1, h3, h2] at h
          | Res.rejected e s3 => simp [entityPairs, h1, h3, h2] at h
        | Res.thrown e s2 => simp [entityPairs, h1, h3] at h
        | Res.rejected e s2 => simp [entityPairs, h1, h3] at h

end Potion

namespace Potion

theorem hydrateList_length (fuel : Nat) (srv : Server) (pre : String)
    (reg : List (String × String)) (s : ExecState) (items : List JSON)
    (vs : List HValue) (s1 : ExecState)
    (h : hydrateList fuel srv pre reg s items = Res.ok vs s1) :
    vs.length = items.length := by
  induction items generalizing fuel s vs s1 with
  | nil =>
    match fuel with
    | 0 => simp [hydrateList] at h
    | fuel0 + 1 =>
      simp [hydrateList] at h
      simp [← h.1]
  | cons j rest ih =>
    match fuel with
    | 0 => simp [hydrateList] at h
    | fuel0 + 1 =>
      match h3 : fromPotionJSON fuel0 srv pre reg s j with
      | Res.ok v s2 =>
        match h2 : hydrateList fuel0 srv pre reg s2 rest with
        | Res.ok ws s3 =>
          simp [hydrateList, h3, h2] at h
          rw [← h.1]
          simp [ih fuel0 s2 ws s3 h2]
        | Res.thrown e s3 => simp [hydrateList, h3, h2] at h
        | Res.rejected e s3 => simp [hydrateList, h3, h2] at h
      | Res.thrown e s2 => simp [hydrateList, h3] at h
      | Res.rejected e s2 => simp [hydrateList, h3] at h

theorem assocLookup_perm {κ α : Type} [DecidableEq κ]
    (l1 l2 : List (κ × α)) (hp : l1.Perm l2)
    (nd : (l1.map Prod.fst).Nodup) (k : κ) :
    assocLookup l1 k = assocLookup l2 k := by
  induction hp with
  | nil => rfl
  | cons x hp ih =>
    simp only [List.map_cons, List.nodup_cons] at nd
    obtain ⟨x1, x2⟩ := x
    simp only [assocLookup]
    rw [ih nd.2]
  | swap x y l =>
    obtain ⟨x1, x2⟩ := x
    obtain ⟨y1, y2⟩ := y
    simp only [List.map_cons, List.nodup_cons, List.mem_cons] at nd
    have hxy : y1 ≠ x1 := fun hc => nd.1 (Or.inl hc)
    simp only [assocLookup]
    by_cases h1 : y1 = k
    · subst h1
      rw [if_pos rfl, if_neg (fun hc : x1 = y1 => hxy hc.symm), if_pos rfl]
    · by_cases h2 : x1 = k
      · subst h2
        rw [if_neg h1, if_pos rfl, if_pos rfl]
      · rw [if_neg h1, if_neg h2, if_neg h2, if_neg h1]
  | trans hp1 hp2 ih1 ih2 =>
    have nd2 := ((hp1.map Prod.fst).nodup_iff).mp nd
    rw [ih1 nd, ih2 nd2]

theorem lookup_enumFrom (vs : List HValue) (n i : Nat) :
    assocLookup (List.enumFrom n vs) (n + i) = vs[i]? := by
  induction vs generalizing n i with
  | nil => simp [List.enumFrom, assocLookup]
  | cons v vs ih =>
    match i with
    | 0 => simp [List.enumFrom, assocLookup]
    | i' + 1 =>
      have hne : n ≠ n + (i' + 1) := by omega
      have harith : n + (i' + 1) = (n + 1) + i' := by omega
      simp only [List.enumFrom, assocLookup, if_neg hne]
      rw [harith, ih (n + 1) i']
      simp

theorem lookup_enum (vs : List HValue) (i : Nat) :
    assocLookup (List.enum vs) i = vs[i]? := by
  have := lookup_enumFrom vs 0 i
  simpa [List.enum] using this

theorem assembleFrom_spec (tail : List HValue) (cs : List (Nat × HValue))
    (start : Nat) (h : ∀ i, assocLookup cs (start + i) = tail[i]?) :
    assembleFrom cs start tail.length = some tail := by
  induction tail generalizing start with
  | nil => rfl
  | cons v t ih =>
    have h0 : assocLookup cs start = some v := by
      have := h 0
      simpa using this
    have hrest : ∀ i, assocLookup cs ((start + 1) + i) = t[i]? := by
      intro i
      have := h (i + 1)
      rw [show start + (i + 1) = (start + 1) + i by omega] at this
      simpa using this
    simp only [List.length_cons, assembleFrom, h0, ih (start + 1) hrest]

theorem assembleFrom_congr (cs1 cs2 : List (Nat × HValue))
    (h : ∀ k, assocLookup cs1 k = assocLookup cs2 k) (n start : Nat) :
    assembleFrom cs1 start n = assembleFrom cs2 start n := by
  induction n generalizing start with
  | zero => rfl
  | succ n ih => simp only [assembleFrom, h, ih (start + 1)]

theorem promiseAllAssemble_perm_enum (vs : List HValue)
    (cs : List (Nat × HValue)) (hp : cs.Perm (List.enum vs)) :
    promiseAllAssemble vs.length cs = some vs := by
  have hnd : ((List.enum vs).map Prod.fst).Nodup := by
    rw [List.enum_map_fst]
    exact List.nodup_range _
  have hcs : (cs.map Prod.fst).Nodup := ((hp.map Prod.fst).nodup_iff).mpr hnd
  have hlk : ∀ k, assocLookup cs k = assocLookup (List.enum vs) k :=
    fun k => assocLookup_perm cs (List.enum vs) hp hcs k
  rw [promiseAllAssemble, assembleFrom_congr cs (List.enum vs) hlk vs.length 0]
  exact assembleFrom_spec vs (List.enum vs) 0 (fun i => by simpa using lookup_enum vs i)

theorem findMatch_first (fore : List (String × String)) (u : List Char)
    (p r : String) (aft : List (String × String))
    (hnone : noneMatches fore u = true)
    (hm : isPrefixList (p.toList ++ ['/']) u = true) :
    findMatch (fore ++ (p, r) :: aft) u = some (p, r) := by
  induction fore with
  | nil =>
    have hm2 : isPrefixList (String.data p ++ ['/']) u = true := hm
    simp [findMatch, hm2]
  | cons hd tl ih =>
    simp only [noneMatches, List.all_cons, Bool.and_eq_true] at hnone
    have hne0 : (!isPrefixList (String.data hd.1 ++ ['/']) u) = true := hnone.1
    have hne : isPrefixList (String.data hd.1 ++ ['/']) u = false := by
      simpa using hne0
    obtain ⟨q1, q2⟩ := hd
    simp only [List.cons_append, findMatch]
    simp only at hne
    simp [hne]
    exact ih hnone.2

end Potion

/-- C1 counterexample: the claim fails on the code for the part of the window
after the raw JSON has arrived but before hydration has completed.  Starting
from an empty dispatcher state, a first `get("/user/5")` registers future 0
and issues one GET; when the raw JSON arrives, the success continuation
deletes the ledger entry (line 275) while future 0 is still pending
(hydration has not completed).  A second `get("/user/5")` issued in that
interval does not observe future 0: it starts a fresh future 1 and issues a
second transport GET. -/
theorem c1_counterexample :
    assocLookup (fetchArriveStep
      (getStep ⟨some [], [], [], 0, []⟩ "" "/user/5").2 "/user/5").promises 0 =
        some PromState.pending ∧
    (getStep (fetchArriveStep
      (getStep ⟨some [], [], [], 0, []⟩ "" "/user/5").2 "/user/5") "" "/user/5").1 =
        GetRes.started 1 ∧
    (getStep (fetchArriveStep
      (getStep ⟨some [], [], [], 0, []⟩ "" "/user/5").2 "/user/5") "" "/user/5").2.fetchLog =
        [("/user/5", Method.GET), ("/user/5", Method.GET)] :=
  ⟨rfl, rfl, rfl⟩

/-- C1 (amended): for every URI, any two `get(uri)` calls issued while the
transport fetch for that URI is in flight — that is, before its raw JSON
arrives — observe the same underlying future and cause exactly one
transport fetch.  Concretely: from any dispatcher state with no cached
value and no ledger entry for `uri`, the first `get` starts future
`d.nextId`, appends exactly one GET to the transport log and registers the
future in the ledger; a second `get` issued before the JSON arrives returns
that same future and changes nothing.  The coalescing window ends when the
raw JSON arrives: the success continuation removes the ledger entry at that
point, before hydration completes (last conjunct), which is what refutes
the original claim's wider window. -/
theorem c1_dedup_window (d : DState) (pre uri : String)
    (hc : cacheHitD d uri = none) (hl : assocLookup d.ledger uri = none) :
    (getStep d pre uri).1 = GetRes.started d.nextId ∧
    (getStep d pre uri).2.fetchLog =
      d.fetchLog ++ [(requestUri pre uri, Method.GET)] ∧
    getStep (getStep d pre uri).2 pre uri =
      (GetRes.joined d.nextId, (getStep d pre uri).2) ∧
    assocLookup (fetchArriveStep (getStep d pre uri).2 uri).ledger uri = none := by
  have hms := getStep_miss d pre uri hc hl
  refine ⟨by rw [hms], by rw [hms], ?_, ?_⟩
  · rw [hms]
    exact getStep_join _ pre uri d.nextId hc (assocLookup_set_self _ _ _)
  · rw [hms]
    exact assocLookup_erase_self _ _

/-- C1 witness: the amended theorem at the empty dispatcher state and URI
`/user/5`. -/
theorem c1_dedup_window_witness :
    (getStep ⟨some [], [], [], 0, []⟩ "" "/user/5").1 = GetRes.started 0 ∧
    (getStep ⟨some [], [], [], 0, []⟩ "" "/user/5").2.fetchLog =
      [] ++ [(requestUri "" "/user/5", Method.GET)] ∧
    getStep (getStep ⟨some [], [], [], 0, []⟩ "" "/user/5").2 "" "/user/5" =
      (GetRes.joined 0, (getStep ⟨some [], [], [], 0, []⟩ "" "/user/5").2) ∧
    assocLookup (fetchArriveStep
      (getStep ⟨some [], [], [], 0, []⟩ "" "/user/5").2 "/user/5").ledger "/user/5" =
        none :=
  c1_dedup_window ⟨some [], [], [], 0, []⟩ "" "/user/5" rfl rfl

/-- C2: when the transport fetch for `uri` fails, the ledger entry is not
removed (removal is coded only on the success path, line 275): the failure
step leaves the ledger unchanged, marks the registered future rejected and
issues no transport call; and every later `get` on a state that misses the
cache and still holds that ledger entry returns the same — now rejected —
future without issuing a new transport call. -/
theorem c2_failure_ledger (d d2 : DState) (pre uri : String) (id : Nat)
    (hl : assocLookup d.ledger uri = some id)
    (hc2 : cacheHitD d2 uri = none)
    (hl2 : assocLookup d2.ledger uri = some id) :
    (fetchFailStep d uri).ledger = d.ledger ∧
    assocLookup (fetchFailStep d uri).promises id = some PromState.rejected ∧
    (fetchFailStep d uri).fetchLog = d.fetchLog ∧
    getStep d2 pre uri = (GetRes.joined id, d2) := by
  refine ⟨?_, ?_, ?_, getStep_join d2 pre uri id hc2 hl2⟩
  · simp [fetchFailStep, hl]
  · simp [fetchFailStep, hl, assocLookup_set_self]
  · simp [fetchFailStep, hl]

/-- C2 witness: the state reached after `get("/user/5")` registered future 0
and the transport failed; the subsequent `get` joins the rejected future. -/
theorem c2_failure_ledger_witness :
    (fetchFailStep ⟨some [], [("/user/5", 0)], [(0, PromState.pending)], 1,
      [("/user/5", Method.GET)]⟩ "/user/5").ledger = [("/user/5", 0)] ∧
    assocLookup (fetchFailStep ⟨some [], [("/user/5", 0)],
      [(0, PromState.pending)], 1, [("/user/5", Method.GET)]⟩ "/user/5").promises 0 =
      some PromState.rejected ∧
    (fetchFailStep ⟨some [], [("/user/5", 0)], [(0, PromState.pending)], 1,
      [("/user/5", Method.GET)]⟩ "/user/5").fetchLog = [("/user/5", Method.GET)] ∧
    getStep (fetchFailStep ⟨some [], [("/user/5", 0)], [(0, PromState.pending)], 1,
      [("/user/5", Method.GET)]⟩ "/user/5") "" "/user/5" =
      (GetRes.joined 0, fetchFailStep ⟨some [], [("/user/5", 0)],
        [(0, PromState.pending)], 1, [("/user/5", Method.GET)]⟩ "/user/5") :=
  c2_failure_ledger
    ⟨some [], [("/user/5", 0)], [(0, PromState.pending)], 1,
      [("/user/5", Method.GET)]⟩
    (fetchFailStep ⟨some [], [("/user/5", 0)], [(0, PromState.pending)], 1,
      [("/user/5", Method.GET)]⟩ "/user/5")
    "" "/user/5" 0 rfl rfl rfl

/-- C3: hydrating a JSON object carrying a string `$uri` field resolves the
URI to a registered resource, hydrates the remaining fields into
`[converted key, value]` pairs (hypothesis `hpairs` is exactly the source's
field loop), constructs an instance of the resolved resource type from the
assembled bag with the `$uri` key filtered out and the resolved URI
attached as its identity, stores that instance in the configured Object
Cache keyed by the resolved URI, and yields the instance.  The `$uri` key
does not appear in the final property bag, and every final key is the
camel-cased form of a wire key.  The side condition `noUriClash` excludes
wire keys other than `$uri` that camel-case to `$uri` (the spec declares
keys that do not round-trip cleanly through the naming conversion
undefined). -/
theorem c3_entity_hydration (fuel : Nat) (srv : Server) (pre : String)
    (reg : List (String × String)) (s s1 : ExecState)
    (fields : List (String × JSON)) (u : String) (pr : ParsedURI)
    (pairs : List (String × HValue))
    (hu : assocLookup fields "$uri" = some (JSON.str u))
    (hp : parseURI pre reg u = Except.ok pr)
    (hpairs : entityPairs fuel srv pre reg pr.uri s fields = Res.ok pairs s1)
    (hside : noUriClash fields = true)
    (hcache : s1.cache.isSome = true) :
    fromPotionJSON (fuel + 1) srv pre reg s (JSON.obj fields) =
      Res.ok (HValue.inst pr.resource pr.uri (stripUriKey (pairsToObject pairs)))
        (cacheStore s1 pr.uri
          (HValue.inst pr.resource pr.uri (stripUriKey (pairsToObject pairs)))) ∧
    keyElem "$uri" (propKeys (stripUriKey (pairsToObject pairs))) = false ∧
    keysSubset (propKeys (stripUriKey (pairsToObject pairs)))
      (camelKeys fields) = true ∧
    cacheGet (cacheStore s1 pr.uri
        (HValue.inst pr.resource pr.uri (stripUriKey (pairsToObject pairs))))
      pr.uri =
      some (HValue.inst pr.resource pr.uri (stripUriKey (pairsToObject pairs))) := by
  have hsf : strField fields "$uri" = some u := by rw [strField, hu]
  have hkeys := entityPairs_keys fuel srv pre reg pr.uri s fields pairs s1 hpairs
  have hmemf : ("$uri", JSON.str u) ∈ fields := assocLookup_mem_pair fields _ _ hu
  have hmemc : "$uri" ∈ camelKeys fields := by
    have h1 := List.mem_map_of_mem (fun kv : String × JSON => toCamelCase kv.1) hmemf
    have huri : toCamelCase "$uri" = "$uri" := rfl
    simpa [camelKeys, huri] using h1
  have hmemp : "$uri" ∈ propKeys pairs := by rw [hkeys]; exact hmemc
  have hval := entityPairs_uriVal fuel srv pre reg pr.uri s fields pairs s1
    hpairs hside
  have hlook : assocLookup (pairsToObject pairs) "$uri" =
      some (HValue.str pr.uri) :=
    pairsToObject_lookup pairs "$uri" (HValue.str pr.uri) hmemp hval
  have hufs : uriFieldString (pairsToObject pairs) = pr.uri :=
    uriFieldString_eq _ _ hlook
  refine ⟨?_, stripUriKey_no_uri _, ?_, ?_⟩
  · simp only [fromPotionJSON, hsf, hp, hpairs, hufs]
  · refine keysSubset_of _ _ (fun k hk => ?_)
    have h1 := propKeys_pairsToObject_sub pairs k (propKeys_stripUriKey_sub _ k hk)
    rw [hkeys] at h1
    exact h1
  · exact cacheGet_store_self s1 pr.uri _ hcache

/-- C3 witness: hydrating `{"$uri": "/user/5", "first_name": "Ann"}` against
the registry binding `/user` to `User` yields a `User` instance with
identity `/user/5` and property `firstName`, cached under `/user/5`. -/
theorem c3_entity_hydration_witness :
    fromPotionJSON 20 testServer "" testReg ⟨some [], []⟩
      (JSON.obj [("$uri", JSON.str "/user/5"), ("first_name", JSON.str "Ann")]) =
      Res.ok userInst ⟨some [("/user/5", userInst)], []⟩ ∧
    keyElem "$uri" (propKeys (stripUriKey (pairsToObject
      [("$uri", HValue.str "/user/5"), ("firstName", HValue.str "Ann")]))) = false ∧
    keysSubset (propKeys (stripUriKey (pairsToObject
      [("$uri", HValue.str "/user/5"), ("firstName", HValue.str "Ann")])))
      (camelKeys [("$uri", JSON.str "/user/5"), ("first_name", JSON.str "Ann")]) =
      true ∧
    cacheGet ⟨some [("/user/5", userInst)], []⟩ "/user/5" = some userInst :=
  c3_entity_hydration 19 testServer "" testReg ⟨some [], []⟩ ⟨some [], []⟩
    [("$uri", JSON.str "/user/5"), ("first_name", JSON.str "Ann")]
    "/user/5" ⟨"/user/5", "User", ["5"]⟩
    [("$uri", HValue.str "/user/5"), ("firstName", HValue.str "Ann")]
    rfl rfl rfl rfl rfl

/-- C4: once an entity is cached under its URI, a direct `get(uri)` returns
exactly the cached object with no transport call and no state change (first
conjunct, for every state whose cache holds a truthy value for `uri`);
hydrating a reference stub `{"$ref": r}` delegates to the full
`get` path on the resolved URI (second conjunct), so cache and coalescing
apply to it; concretely, hydrating `{"$ref": "/user/5"}` with `/user/5` not
cached triggers exactly one GET for `/user/5` and caches the hydrated
entity (third conjunct), and with `/user/5` already cached returns the
identical cached instance with no transport call (fourth conjunct). -/
theorem c4_cache_identity (fuel : Nat) (srv : Server) (pre : String)
    (reg : List (String × String)) (s s2 : ExecState) (uri r : String)
    (v : HValue) (pr : ParsedURI)
    (hch : cacheHit s uri = some v)
    (href : parseURI pre reg r = Except.ok pr) :
    Potion.get (fuel + 1) srv pre reg s uri = Res.ok v s ∧
    fromPotionJSON (fuel + 1) srv pre reg s2 (JSON.obj [("$ref", JSON.str r)]) =
      Potion.get fuel srv pre reg s2 pr.uri ∧
    fromPotionJSON 20 testServer "" testReg ⟨some [], []⟩
      (JSON.obj [("$ref", JSON.str "/user/5")]) =
      Res.ok userInst ⟨some [("/user/5", userInst)], [("/user/5", Method.GET)]⟩ ∧
    fromPotionJSON 20 testServer "" testReg ⟨some [("/user/5", userInst)], []⟩
      (JSON.obj [("$ref", JSON.str "/user/5")]) =
      Res.ok userInst ⟨some [("/user/5", userInst)], []⟩ := by
  refine ⟨?_, ?_, rfl, rfl⟩
  · simp only [Potion.get, hch]
  · simp [fromPotionJSON, strField, assocLookup, href]

/-- C4 witness: the cached-hit and delegation conjuncts at the `/user/5`
fixture. -/
theorem c4_cache_identity_witness :
    Potion.get 20 testServer "" testReg ⟨some [("/user/5", userInst)], []⟩
      "/user/5" = Res.ok userInst ⟨some [("/user/5", userInst)], []⟩ ∧
    fromPotionJSON 20 testServer "" testReg ⟨some [], []⟩
      (JSON.obj [("$ref", JSON.str "/user/5")]) =
      Potion.get 19 testServer "" testReg ⟨some [], []⟩ "/user/5" ∧
    fromPotionJSON 20 testServer "" testReg ⟨some [], []⟩
      (JSON.obj [("$ref", JSON.str "/user/5")]) =
      Res.ok userInst ⟨some [("/user/5", userInst)], [("/user/5", Method.GET)]⟩ ∧
    fromPotionJSON 20 testServer "" testReg ⟨some [("/user/5", userInst)], []⟩
      (JSON.obj [("$ref", JSON.str "/user/5")]) =
      Res.ok userInst ⟨some [("/user/5", userInst)], []⟩ :=
  c4_cache_identity 19 testServer "" testReg
    ⟨some [("/user/5", userInst)], []⟩ ⟨some [], []⟩ "/user/5" "/user/5"
    userInst ⟨"/user/5", "User", ["5"]⟩ rfl rfl

/-- C5: `parseURI` decodes the URI, strips the configured global prefix when
the URI starts with it (both folded into `effectiveURI`), iterates the
registered resource prefixes in registration order, and for the first
prefix `p` such that the remaining path starts with `p + "/"` returns that
prefix's registered resource together with the remainder of the path after
`p/` split on `/` as the parameter sequence.  Concretely, after registering
`User` at `/user`, parsing `/user/5` returns resource `User` and parameters
`["5"]`. -/
theorem c5_parse_uri (pre uri0 : String) (fore aft : List (String × String))
    (p r : String)
    (hnone : noneMatches fore (effectiveURI pre uri0) = true)
    (hm : isPrefixList (p.toList ++ ['/']) (effectiveURI pre uri0) = true) :
    parseURI pre (fore ++ (p, r) :: aft) uri0 =
      Except.ok ⟨String.mk (effectiveURI pre uri0), r,
        splitSlash ((effectiveURI pre uri0).drop (p.toList.length + 1))⟩ ∧
    parseURI "" testReg "/user/5" = Except.ok ⟨"/user/5", "User", ["5"]⟩ := by
  refine ⟨?_, rfl⟩
  simp only [parseURI,
    findMatch_first fore (effectiveURI pre uri0) p r aft hnone hm]

/-- C5 witness: the first-match theorem at a two-entry registry whose first
entry does not match, resolving `/user/5` to `User` and `["5"]`. -/
theorem c5_parse_uri_witness :
    parseURI "" ([("/group", "Group")] ++ ("/user", "User") :: []) "/user/5" =
      Except.ok ⟨String.mk (effectiveURI "" "/user/5"), "User",
        splitSlash ((effectiveURI "" "/user/5").drop
          ("/user".toList.length + 1))⟩ ∧
    parseURI "" testReg "/user/5" = Except.ok ⟨"/user/5", "User", ["5"]⟩ :=
  c5_parse_uri "" "/user/5" [("/group", "Group")] [] "/user" "User" rfl rfl

/-- C6: when the DELETE transport call of `destroy` succeeds on an entity
whose URI is cached, the URI is evicted from the Object Cache (first two
conjuncts), so a later `get` that finds neither a cached value nor a ledger
entry starts a fresh future and issues a new transport GET (last two
conjuncts); when the DELETE transport call fails, `destroy` rejects and the
cache is left untouched (middle conjuncts). -/
theorem c6_destroy_evicts (srv srv2 : Server) (pre pre2 : String)
    (s s2 : ExecState) (uri uri2 : String) (v : HValue) (j : JSON)
    (d : DState)
    (hdel : srv (requestUri pre uri) Method.DELETE none = some j)
    (hhit : cacheHit s uri = some v)
    (hfail : srv2 (requestUri pre2 uri2) Method.DELETE none = none)
    (hcd : cacheHitD d uri = none)
    (hld : assocLookup d.ledger uri = none) :
    Potion.destroy srv pre s uri =
      Res.ok HValue.undef
        (clearCache (logFetch s (requestUri pre uri) Method.DELETE) uri) ∧
    cacheGet (clearCache (logFetch s (requestUri pre uri) Method.DELETE) uri)
      uri = none ∧
    Potion.destroy srv2 pre2 s2 uri2 =
      Res.rejected (Err.transportFail (requestUri pre2 uri2))
        (logFetch s2 (requestUri pre2 uri2) Method.DELETE) ∧
    cacheGet (logFetch s2 (requestUri pre2 uri2) Method.DELETE) uri2 =
      cacheGet s2 uri2 ∧
    (getStep d pre uri).1 = GetRes.started d.nextId ∧
    (getStep d pre uri).2.fetchLog =
      d.fetchLog ++ [(requestUri pre uri, Method.GET)] := by
  have hms := getStep_miss d pre uri hcd hld
  refine ⟨?_, cacheGet_clearCache _ _, ?_, rfl, by rw [hms], by rw [hms]⟩
  · have hhit1 : cacheHit (logFetch s (requestUri pre uri) Method.DELETE) uri =
        some v := hhit
    simp only [Potion.destroy, hdel, hhit1]
  · simp only [Potion.destroy, hfail]

/-- C6 witness: destroying the cached `/user/5` through a succeeding DELETE
evicts it; `/user/7`, whose DELETE rejects, keeps its cache entry; the
subsequent `get` on the empty dispatcher state issues a fresh GET. -/
theorem c6_destroy_evicts_witness :
    Potion.destroy testServer "" ⟨some [("/user/5", userInst)], []⟩ "/user/5" =
      Res.ok HValue.undef
        (clearCache (logFetch ⟨some [("/user/5", userInst)], []⟩
          (requestUri "" "/user/5") Method.DELETE) "/user/5") ∧
    cacheGet (clearCache (logFetch ⟨some [("/user/5", userInst)], []⟩
      (requestUri "" "/user/5") Method.DELETE) "/user/5") "/user/5" = none ∧
    Potion.destroy testServer "" ⟨some [("/user/7", userInst)], []⟩ "/user/7" =
      Res.rejected (Err.transportFail (requestUri "" "/user/7"))
        (logFetch ⟨some [("/user/7", userInst)], []⟩
          (requestUri "" "/user/7") Method.DELETE) ∧
    cacheGet (logFetch ⟨some [("/user/7", userInst)], []⟩
      (requestUri "" "/user/7") Method.DELETE) "/user/7" =
      cacheGet ⟨some [("/user/7", userInst)], []⟩ "/user/7" ∧
    (getStep ⟨some [], [], [], 0, []⟩ "" "/user/5").1 = GetRes.started 0 ∧
    (getStep ⟨some [], [], [], 0, []⟩ "" "/user/5").2.fetchLog =
      [] ++ [(requestUri "" "/user/5", Method.GET)] :=
  c6_destroy_evicts testServer testServer "" ""
    ⟨some [("/user/5", userInst)], []⟩ ⟨some [("/user/7", userInst)], []⟩
    "/user/5" "/user/7" userInst (JSON.obj [("x", JSON.num 1)])
    ⟨some [], [], [], 0, []⟩ rfl rfl rfl rfl rfl

/-- C7 counterexample: the claim fails on the code for `destroy`.  The
transport's DELETE response for `/user/5` carries the JSON body
`{"x": 1}`; the engine's own hydration path would turn that body into the
mapping `{x: 1}` (second conjunct), but `destroy` resolves with
`undefined`, discarding the body unhydrated (first conjunct) — the two
results differ (third conjunct). -/
theorem c7_counterexample :
    Potion.destroy testServer "" ⟨some [], []⟩ "/user/5" =
      Res.ok HValue.undef ⟨some [], [("/user/5", Method.DELETE)]⟩ ∧
    fromPotionJSON 20 testServer "" testReg ⟨some [], [("/user/5", Method.DELETE)]⟩
      (JSON.obj [("x", JSON.num 1)]) =
      Res.ok (HValue.obj [("x", HValue.num 1)])
        ⟨some [], [("/user/5", Method.DELETE)]⟩ ∧
    HValue.undef ≠ HValue.obj [("x", HValue.num 1)] :=
  ⟨rfl, rfl, fun h => HValue.noConfusion h⟩

/-- C7 (amended): `update(entity, partialData)` and `save(rootUri, data)`
issue exactly one transport call — PUT and POST respectively — and hydrate
the returned JSON body through the same `_fromPotionJSON` path used by
`get`, yielding the hydrated result (a synchronous hydration throw becomes
a rejection, as inside any `.then` continuation); `destroy(entity)` issues
exactly one DELETE but discards any response body and resolves with
`undefined`.  None of the three consults or registers an entry in the
pending-request ledger, and none touches the promise pool (the `Step`
conjuncts: their dispatcher-state footprint is exactly one logged transport
call of the respective method). -/
theorem c7_mutations (fuel : Nat) (srv : Server) (pre : String)
    (reg : List (String × String)) (su ss sd : ExecState)
    (uri rootUri duri : String) (updData savData : JSON) (j1 j2 j3 : JSON)
    (d : DState)
    (hput : srv (requestUri pre uri) Method.PUT (some updData) = some j1)
    (hpost : srv (requestUri pre rootUri) Method.POST (some savData) = some j2)
    (hdel : srv (requestUri pre duri) Method.DELETE none = some j3) :
    Potion.update fuel srv pre reg su uri updData =
      thenFromJSON (fromPotionJSON fuel srv pre reg
        (logFetch su (requestUri pre uri) Method.PUT) j1) ∧
    Potion.save fuel srv pre reg ss rootUri savData =
      thenFromJSON (fromPotionJSON fuel srv pre reg
        (logFetch ss (requestUri pre rootUri) Method.POST) j2) ∧
    resOk (Potion.destroy srv pre sd duri) = some HValue.undef ∧
    (updateStep d pre uri).ledger = d.ledger ∧
    (updateStep d pre uri).promises = d.promises ∧
    (updateStep d pre uri).fetchLog =
      d.fetchLog ++ [(requestUri pre uri, Method.PUT)] ∧
    (saveStep d pre rootUri).ledger = d.ledger ∧
    (saveStep d pre rootUri).promises = d.promises ∧
    (saveStep d pre rootUri).fetchLog =
      d.fetchLog ++ [(requestUri pre rootUri, Method.POST)] ∧
    (destroyStep d pre duri).ledger = d.ledger ∧
    (destroyStep d pre duri).promises = d.promises ∧
    (destroyStep d pre duri).fetchLog =
      d.fetchLog ++ [(requestUri pre duri, Method.DELETE)] := by
  refine ⟨?_, ?_, ?_, rfl, rfl, rfl, rfl, rfl, rfl, rfl, rfl, rfl⟩
  · simp only [Potion.update, hput]
  · simp only [Potion.save, hpost]
  · simp only [Potion.destroy, hdel]
    cases h : cacheHit (logFetch sd (requestUri pre duri) Method.DELETE) duri <;>
      simp [resOk]

/-- C7 witness: the amended theorem at the `/user/5` fixture (PUT and DELETE
on `/user/5`, POST on `/user`). -/
theorem c7_mutations_witness :
    Potion.update 20 testServer "" testReg ⟨none, []⟩ "/user/5" JSON.null =
      thenFromJSON (fromPotionJSON 20 testServer "" testReg
        (logFetch ⟨none, []⟩ (requestUri "" "/user/5") Method.PUT) userBody) ∧
    Potion.save 20 testServer "" testReg ⟨none, []⟩ "/user" JSON.null =
      thenFromJSON (fromPotionJSON 20 testServer "" testReg
        (logFetch ⟨none, []⟩ (requestUri "" "/user") Method.POST) userBody) ∧
    resOk (Potion.destroy testServer "" ⟨none, []⟩ "/user/5") =
      some HValue.undef ∧
    (updateStep ⟨some [], [], [], 0, []⟩ "" "/user/5").ledger = [] ∧
    (updateStep ⟨some [], [], [], 0, []⟩ "" "/user/5").promises = [] ∧
    (updateStep ⟨some [], [], [], 0, []⟩ "" "/user/5").fetchLog =
      [] ++ [(requestUri "" "/user/5", Method.PUT)] ∧
    (saveStep ⟨some [], [], [], 0, []⟩ "" "/user").ledger = [] ∧
    (saveStep ⟨some [], [], [], 0, []⟩ "" "/user").promises = [] ∧
    (saveStep ⟨some [], [], [], 0, []⟩ "" "/user").fetchLog =
      [] ++ [(requestUri "" "/user", Method.POST)] ∧
    (destroyStep ⟨some [], [], [], 0, []⟩ "" "/user/5").ledger = [] ∧
    (destroyStep ⟨some [], [], [], 0, []⟩ "" "/user/5").promises = [] ∧
    (destroyStep ⟨some [], [], [], 0, []⟩ "" "/user/5").fetchLog =
      [] ++ [(requestUri "" "/user/5", Method.DELETE)] :=
  c7_mutations 20 testServer "" testReg ⟨none, []⟩ ⟨none, []⟩ ⟨none, []⟩
    "/user/5" "/user" "/user/5" JSON.null JSON.null userBody userBody
    (JSON.obj [("x", JSON.num 1)]) ⟨some [], [], [], 0, []⟩ rfl rfl rfl

/-- C8 counterexample: the claim fails on the code for the caller of `get()`.
GET `/oops` returns a body whose `$uri` (`/missing/1`) matches no
registered resource.  The resolver failure is thrown inside `get`'s `.then`
continuation, so the caller of `get` receives a REJECTED future carrying
the `UnknownResourceError` — not a synchronous throw: the outcome is
`Res.rejected`, which differs from the synchronous-`throw` outcome
`Res.thrown` of the same error and state. -/
theorem c8_counterexample :
    Potion.get 20 testServer "" testReg ⟨none, []⟩ "/oops" =
      Res.rejected (Err.unknownResource
        "Uninterpretable or unknown resource URI: /missing/1")
        ⟨none, [("/oops", Method.GET)]⟩ ∧
    Res.rejected (α := HValue) (Err.unknownResource
        "Uninterpretable or unknown resource URI: /missing/1")
        ⟨none, [("/oops", Method.GET)]⟩ ≠
      Res.thrown (Err.unknownResource
        "Uninterpretable or unknown resource URI: /missing/1")
        ⟨none, [("/oops", Method.GET)]⟩ :=
  ⟨rfl, fun h => Res.noConfusion h⟩

/-- C8 (amended): when no registered resource prefix matches, the URI
Resolver throws `UnknownResourceError` synchronously, and hydration
surfaces it synchronously to its own caller with no retry and no transport
call: hydrating an entity envelope whose `$uri` does not resolve, or a
reference stub whose `$ref` does not resolve, is a synchronous throw that
leaves the state untouched (first two conjuncts).  A caller of `get()`,
however, observes the failure as a rejection of the returned future —
hydration runs inside the transport `.then` continuation, whose throws
reject the promise (third conjunct); the error value is untouched and
nothing is retried. -/
theorem c8_unknown_resource (fuel : Nat) (srv : Server) (pre : String)
    (reg : List (String × String)) (s sr sg s2 : ExecState)
    (fields : List (String × JSON)) (u r uri : String) (m m2 : String)
    (e : Err) (j : JSON)
    (hu : assocLookup fields "$uri" = some (JSON.str u))
    (hp : parseURI pre reg u = Except.error m)
    (hp2 : parseURI pre reg r = Except.error m2)
    (hch : cacheHit sg uri = none)
    (hsrv : srv (requestUri pre uri) Method.GET none = some j)
    (hth : fromPotionJSON fuel srv pre reg
      (logFetch sg (requestUri pre uri) Method.GET) j = Res.thrown e s2) :
    fromPotionJSON (fuel + 1) srv pre reg s (JSON.obj fields) =
      Res.thrown (Err.unknownResource m) s ∧
    fromPotionJSON (fuel + 1) srv pre reg sr (JSON.obj [("$ref", JSON.str r)]) =
      Res.thrown (Err.unknownResource m2) sr ∧
    Potion.get (fuel + 1) srv pre reg sg uri = Res.rejected e s2 := by
  have hsf : strField fields "$uri" = some u := by rw [strField, hu]
  refine ⟨?_, ?_, ?_⟩
  · simp only [fromPotionJSON, hsf, hp]
  · simp [fromPotionJSON, strField, assocLookup, hp2]
  · simp only [Potion.get, hch, hsrv, hth, thenFromJSON]

/-- C8 witness: the amended theorem at the `/oops` fixture, whose body's
`$uri` is the unregistered `/missing/1`. -/
theorem c8_unknown_resource_witness :
    fromPotionJSON 20 testServer "" testReg ⟨none, []⟩
      (JSON.obj [("$uri", JSON.str "/missing/1")]) =
      Res.thrown (Err.unknownResource
        "Uninterpretable or unknown resource URI: /missing/1") ⟨none, []⟩ ∧
    fromPotionJSON 20 testServer "" testReg ⟨none, []⟩
      (JSON.obj [("$ref", JSON.str "/missing/1")]) =
      Res.thrown (Err.unknownResource
        "Uninterpretable or unknown resource URI: /missing/1") ⟨none, []⟩ ∧
    Potion.get 20 testServer "" testReg ⟨none, []⟩ "/oops" =
      Res.rejected (Err.unknownResource
        "Uninterpretable or unknown resource URI: /missing/1")
        ⟨none, [("/oops", Method.GET)]⟩ :=
  c8_unknown_resource 19 testServer "" testReg ⟨none, []⟩ ⟨none, []⟩ ⟨none, []⟩
    ⟨none, [("/oops", Method.GET)]⟩
    [("$uri", JSON.str "/missing/1")] "/missing/1" "/missing/1" "/oops"
    "Uninterpretable or unknown resource URI: /missing/1"
    "Uninterpretable or unknown resource URI: /missing/1"
    (Err.unknownResource "Uninterpretable or unknown resource URI: /missing/1")
    (JSON.obj [("$uri", JSON.str "/missing/1")])
    rfl rfl rfl rfl rfl rfl

/-- C9: array hydration produces the hydrated elements in the original index
order.  First conjunct: a successful array hydration yields exactly one
value per element.  Second conjunct: the `Promise.all` join reassembles the
siblings' settlement events — supplied in ANY arrival order (`cs` is any
permutation of the index-tagged results) — into the original index order,
recovering exactly the hydrated sequence.  Third conjunct: hydrating
`[{"$date": 1}, {"$date": 2}]` yields the two date values in that exact
order. -/
theorem c9_array_order (fuel : Nat) (srv : Server) (pre : String)
    (reg : List (String × String)) (s s1 : ExecState) (items : List JSON)
    (vs : List HValue) (cs : List (Nat × HValue))
    (h1 : hydrateList fuel srv pre reg s items = Res.ok vs s1)
    (h2 : cs.Perm (List.enum vs)) :
    vs.length = items.length ∧
    promiseAllAssemble items.length cs = some vs ∧
    fromPotionJSON 20 testServer "" testReg ⟨none, []⟩
      (JSON.arr [JSON.obj [("$date", JSON.num 1)],
        JSON.obj [("$date", JSON.num 2)]]) =
      Res.ok (HValue.arr [HValue.date (JSON.num 1), HValue.date (JSON.num 2)])
        ⟨none, []⟩ := by
  have hlen := hydrateList_length fuel srv pre reg s items vs s1 h1
  refine ⟨hlen, ?_, rfl⟩
  rw [← hlen]
  exact promiseAllAssemble_perm_enum vs cs h2

/-- C9 witness: the two `$date` markers hydrate in index order, and the join
recovers that order even when the second element's settlement arrives
first. -/
theorem c9_array_order_witness :
    ([HValue.date (JSON.num 1), HValue.date (JSON.num 2)] : List HValue).length =
      ([JSON.obj [("$date", JSON.num 1)], JSON.obj [("$date", JSON.num 2)]] :
        List JSON).length ∧
    promiseAllAssemble
      ([JSON.obj [("$date", JSON.num 1)], JSON.obj [("$date", JSON.num 2)]] :
        List JSON).length
      [(1, HValue.date (JSON.num 2)), (0, HValue.date (JSON.num 1))] =
      some [HValue.date (JSON.num 1), HValue.date (JSON.num 2)] ∧
    fromPotionJSON 20 testServer "" testReg ⟨none, []⟩
      (JSON.arr [JSON.obj [("$date", JSON.num 1)],
        JSON.obj [("$date", JSON.num 2)]]) =
      Res.ok (HValue.arr [HValue.date (JSON.num 1), HValue.date (JSON.num 2)])
        ⟨none, []⟩ :=
  c9_array_order 19 testServer "" testReg ⟨none, []⟩ ⟨none, []⟩
    [JSON.obj [("$date", JSON.num 1)], JSON.obj [("$date", JSON.num 2)]]
    [HValue.date (JSON.num 1), HValue.date (JSON.num 2)]
    [(1, HValue.date (JSON.num 2)), (0, HValue.date (JSON.num 1))]
    rfl
    (List.Perm.swap (0, HValue.date (JSON.num 1)) (1, HValue.date (JSON.num 2)) [])

/-- C10: the `id` getter returns `null` whenever the item's URI is unset —
`undefined`/`null` (modelled `none`) or the empty string — and it does so
for every configured prefix and registry, i.e. without consulting the URI
resolver (first two conjuncts); for an item with a non-empty URI that the
resolver accepts, `id` is `parseInt(params[0], 10)` applied to the first
URI parameter (third conjunct); concretely, an item at `/user/5` under the
`User` registration has id 5 (fourth conjunct). -/
theorem c10_item_id (pre pre2 : String) (reg reg2 : List (String × String))
    (u : String) (pr : ParsedURI)
    (hne : u ≠ "")
    (hp : parseURI pre reg u = Except.ok pr) :
    itemId pre2 reg2 none = IdResult.nullId ∧
    itemId pre2 reg2 (some "") = IdResult.nullId ∧
    itemId pre reg (some u) =
      IdResult.numId (parseInt10 (List.headD pr.params "")) ∧
    itemId "" testReg (some "/user/5") = IdResult.numId (some 5) := by
  refine ⟨rfl, rfl, ?_, rfl⟩
  simp [itemId, hne, hp]

/-- C10 witness: `/user/5` yields id 5; the unset cases yield `null` even
against an empty registry where any resolution would fail. -/
theorem c10_item_id_witness :
    itemId "/api" [] none = IdResult.nullId ∧
    itemId "/api" [] (some "") = IdResult.nullId ∧
    itemId "" testReg (some "/user/5") =
      IdResult.numId (parseInt10 (List.headD ["5"] "")) ∧
    itemId "" testReg (some "/user/5") = IdResult.numId (some 5) :=
  c10_item_id "" "/api" testReg [] "/user/5" ⟨"/user/5", "User", ["5"]⟩
    (by decide) rfl
